import Mathlib

/-!
Verification of the funding algebra and virtual machine of the `machine`
repository (Go).  The Go sources `core/funding.go` and `vm/machine.go` are
embedded shallowly below: machine integers (`uint64`) are modelled as `Nat`
with explicit reduction modulo `2 ^ 64` at every point where the Go code can
wrap; fallible Go functions (returning `error`) become `Option`-valued
functions; Go maps become association lists.
-/

/-- The modulus of Go's `uint64` arithmetic. -/
def U64 : Nat := 2 ^ 64

/-- Wrapping `uint64` addition (`+` on Go `uint64`). -/
def uadd (a b : Nat) : Nat := (a + b) % U64

/-- Wrapping `uint64` subtraction (`-` on Go `uint64`), for arguments below `2 ^ 64`. -/
def usub (a b : Nat) : Nat := if b ≤ a then (a - b) % U64 else U64 + a - b

/-- `core.FundingPart` (core/funding.go): an (amount, account) pair. -/
structure FundingPart where
  amount : Nat
  account : String
deriving DecidableEq

/-- `core.Funding` (core/funding.go): an asset, an ordered list of parts, and
the infinite flag marking the `world` source. -/
structure Funding where
  asset : String
  parts : List FundingPart
  infinite : Bool
deriving DecidableEq

/-- The element-by-element comparison loop of `Funding.Equals`
(core/funding.go lines 26-30); it is run only on lists of equal length. -/
def eqPartsLoop : List FundingPart → List FundingPart → Bool
  | p :: ps, q :: qs => decide (p = q) && eqPartsLoop ps qs
  | _, _ => true

/-- `Funding.Equals` (core/funding.go lines 19-32): compares asset, part count
and the parts element by element.  The `Infinite` field is not compared. -/
def Funding.Equals (lhs rhs : Funding) : Bool :=
  if lhs.asset ≠ rhs.asset then false
  else if lhs.parts.length ≠ rhs.parts.length then false
  else eqPartsLoop lhs.parts rhs.parts

/-- The shared withdrawal loop of `Funding.Take` (core/funding.go lines 52-78)
and `Funding.TakeMax` (lines 102-128): walk the parts left to right while
something remains to withdraw, splitting the part at the boundary; the tail is
copied to the remainder.  Returns (taken parts, remainder parts, unmet rest). -/
def takeParts : Nat → List FundingPart → List FundingPart × List FundingPart × Nat
  | remaining, [] => ([], [], remaining)
  | remaining, p :: ps =>
    if remaining = 0 then ([], p :: ps, 0)
    else if p.amount > remaining then
      ([⟨remaining, p.account⟩], ⟨p.amount - remaining, p.account⟩ :: ps, 0)
    else
      let rec_result := takeParts (remaining - p.amount) ps
      (⟨p.amount, p.account⟩ :: rec_result.1, rec_result.2.1, rec_result.2.2)

/-- `Funding.Take` (core/funding.go lines 45-93).  `none` models the
"insufficient funding" error return. -/
def Funding.Take (f : Funding) (amount : Nat) : Option (Funding × Funding) :=
  let w := takeParts amount f.parts
  if w.2.2 ≠ 0 then
    if f.infinite then
      some (⟨f.asset, w.1 ++ [⟨w.2.2, "world"⟩], false⟩, ⟨f.asset, w.2.1, true⟩)
    else none
  else
    some (⟨f.asset, w.1, false⟩, ⟨f.asset, w.2.1, f.infinite⟩)

/-- `Funding.TakeMax` (core/funding.go lines 95-139): same loop as `Take`, but
an unmet rest on a finite funding is not an error. -/
def Funding.TakeMax (f : Funding) (amount : Nat) : Funding × Funding :=
  let w := takeParts amount f.parts
  if w.2.2 ≠ 0 ∧ f.infinite then
    (⟨f.asset, w.1 ++ [⟨w.2.2, "world"⟩], false⟩, ⟨f.asset, w.2.1, true⟩)
  else
    (⟨f.asset, w.1, false⟩, ⟨f.asset, w.2.1, f.infinite⟩)

/-- The part concatenation of `Funding.Concat` (core/funding.go lines 150-157),
run only when the left funding is finite: append, merging the boundary parts
when they name the same account (Go `+=` on `uint64` wraps, hence `uadd`). -/
def concatParts : List FundingPart → List FundingPart → List FundingPart
  | [], r => r
  | [p], [] => [p]
  | [p], q :: qs =>
    if p.account = q.account then ⟨uadd p.amount q.amount, p.account⟩ :: qs
    else p :: q :: qs
  | p :: ps, r => p :: concatParts ps r

/-- `Funding.Concat` (core/funding.go lines 141-159).  `none` models the
"tried to concat different assets" error. -/
def Funding.Concat (f other : Funding) : Option Funding :=
  if f.asset ≠ other.asset then none
  else if f.infinite then some ⟨f.asset, f.parts, f.infinite || other.infinite⟩
  else some ⟨f.asset, concatParts f.parts other.parts, f.infinite || other.infinite⟩

/-- The exact (mathematical) sum of the part amounts of a funding: the
`Total(f) = Σ nᵢ` of the specification, before any `uint64` reduction. -/
def sumAmounts : List FundingPart → Nat
  | [] => 0
  | p :: ps => p.amount + sumAmounts ps

/-- `Funding.Total` (core/funding.go lines 161-170): accumulates the part
amounts with wrapping `uint64` addition; errors (`none`) only on an infinite
funding.  There is no overflow check. -/
def Funding.Total (f : Funding) : Option Nat :=
  if f.infinite then none
  else some (f.parts.foldl (fun total p => uadd total p.amount) 0)

/-- `Funding.Reverse` (core/funding.go lines 172-186). -/
def Funding.Reverse (f : Funding) : Option Funding :=
  if f.infinite then none
  else some ⟨f.asset, f.parts.reverse, false⟩

/-- `split` is obtained from `orig` by leaving it unchanged, or by dividing
exactly one part into two adjacent positive parts of the same account whose
amounts sum to the original.  This is the "order-preserving partition in which
at most the part at the split point is divided" of claim C1. -/
def SplitOf (orig split : List FundingPart) : Prop :=
  split = orig ∨
    ∃ pre a x y suf, 0 < x ∧ 0 < y ∧
      orig = pre ++ ⟨x + y, a⟩ :: suf ∧
      split = pre ++ ⟨x, a⟩ :: ⟨y, a⟩ :: suf

/-! ## The virtual machine (vm/machine.go)

Exit codes, the runtime value model, the mutable balances map and the
fetch-decode-execute loop.  Go maps become association lists; the two
request-channel protocols are replaced by pure oracles; the opcode byte
values (vm/program/opcodes.go is not under src/) are fixed below as distinct
bytes in the order machine.go dispatches them. -/

/-- `EXIT_OK` (vm/machine.go lines 23-28, `iota + 1`). -/
def EXIT_OK : Nat := 1

/-- `EXIT_FAIL`. -/
def EXIT_FAIL : Nat := 2

/-- `EXIT_FAIL_INVALID`. -/
def EXIT_FAIL_INVALID : Nat := 3

/-- `EXIT_FAIL_INSUFFICIENT_FUNDS`. -/
def EXIT_FAIL_INSUFFICIENT_FUNDS : Nat := 4

/-- `core.Value`: the tagged union of runtime values.  Portions are exact
rationals (`Option Rat`: `none` is the `remaining` sentinel); core/value.go is
not under src/, the variants follow §3 of the specification. -/
inductive Value where
  | VAccount (name : String)
  | VAsset (code : String)
  | VNumber (n : Nat)
  | VString (s : String)
  | VMonetary (asset : String) (amount : Nat)
  | VPortion (specific : Option Rat)
  | VAllotment (portions : List Rat)
  | VFunding (f : Funding)
deriving DecidableEq

open Value

/-- A `ledger.Posting` as emitted by `OP_SEND` (the `int64` cast of the Go
struct is not modelled; amounts stay `Nat`). -/
structure Posting where
  source : String
  destination : String
  asset : String
  amount : Nat
deriving DecidableEq

/-- The VM's balances map `account → asset → u64` as an association list. -/
def Balances : Type := List (String × List (String × Nat))

instance : DecidableEq Balances := by
  unfold Balances
  infer_instance

/-- Association-list lookup (Go map read `m[k]`, second result `ok`). -/
def lookupA {α : Type} : List (String × α) → String → Option α
  | [], _ => none
  | (k, v) :: rest, key => if k = key then some v else lookupA rest key

/-- Association-list write (Go map write `m[k] = v`). -/
def updateA {α : Type} : List (String × α) → String → α → List (String × α)
  | [], key, v => [(key, v)]
  | (k, w) :: rest, key, v =>
    if k = key then (k, v) :: rest else (k, w) :: updateA rest key v

/-- `Machine.withdrawAll` (vm/machine.go lines 89-109): `world` yields an
infinite funding with no parts and touches no balance entry; a tracked
(account, asset) entry is zeroed and withdrawn whole; anything else errors. -/
def withdrawAll (bal : Balances) (account asset : String) : Option (Funding × Balances) :=
  if account = "world" then some (⟨asset, [], true⟩, bal)
  else
    match lookupA bal account with
    | some acc_balance =>
      match lookupA acc_balance asset with
      | some balance =>
        some (⟨asset, [⟨balance, account⟩], false⟩,
              updateA bal account (updateA acc_balance asset 0))
      | none => none
    | none => none

/-- `Machine.credit` (vm/machine.go lines 111-122): crediting `world` is a
no-op; an untracked account or asset is silently skipped; otherwise every part
amount is added (wrapping `uint64` `+=`) to the destination's entry. -/
def credit (bal : Balances) (account : String) (funding : Funding) : Balances :=
  if account = "world" then bal
  else
    match lookupA bal account with
    | some acc_balance =>
      match lookupA acc_balance funding.asset with
      | some v =>
        updateA bal account
          (updateA acc_balance funding.asset
            (funding.parts.foldl (fun acc p => uadd acc p.amount) v))
      | none => bal
    | none => bal

/-- The loop of `Machine.repay` (vm/machine.go lines 124-131): each non-world
part is credited back to its own account unconditionally; a part whose account
has no entry in the balances map is a write into a nil inner map — a Go
runtime panic, modelled as `none`. -/
def repayGo (bal : Balances) (asset : String) : List FundingPart → Option Balances
  | [] => some bal
  | p :: ps =>
    if p.account = "world" then repayGo bal asset ps
    else
      match lookupA bal p.account with
      | none => none
      | some inner =>
        repayGo
          (updateA bal p.account
            (updateA inner asset (uadd ((lookupA inner asset).getD 0) p.amount)))
          asset ps

/-- `Machine.repay` (vm/machine.go lines 124-131). -/
def repay (bal : Balances) (funding : Funding) : Option Balances :=
  repayGo bal funding.asset funding.parts

/-- The machine state mutated by `Machine.tick`: program counter, operand
stack (head = top), balances, and the accumulated outputs.  The immutable
program (instruction bytes, resources) is passed separately. -/
structure MState where
  P : Nat
  stack : List Value
  balances : Balances
  postings : List Posting
  txMeta : List (String × Value)
  printed : List Value
deriving DecidableEq

/-- The result of one `Machine.tick`: `(true, code)` becomes `halt`,
`(false, 0)` becomes `cont`; a Go runtime panic (slice/index out of range,
nil-map write) is `crash`. -/
inductive TickRes where
  | halt (code : Nat) (s : MState)
  | cont (s : MState)
  | crash
deriving DecidableEq

/-- Modelled from the spec: the typed stack pop helpers (vm/stack.go is not
under src/).  Per §4.7 a pop that finds an empty stack or a value of the wrong
type halts the machine with `EXIT_FAIL_INVALID`; the popped value is consumed.
`inl` carries the stack after the failed pop, `inr` the value and the rest. -/
def popValueS : List Value → Sum (List Value) (Value × List Value)
  | [] => Sum.inl []
  | v :: rest => Sum.inr (v, rest)

/-- Modelled from the spec: `popNumber` (vm/stack.go is not under src/). -/
def popNumberS : List Value → Sum (List Value) (Nat × List Value)
  | VNumber n :: rest => Sum.inr (n, rest)
  | [] => Sum.inl []
  | _ :: rest => Sum.inl rest

/-- Modelled from the spec: `popAsset` (vm/stack.go is not under src/). -/
def popAssetS : List Value → Sum (List Value) (String × List Value)
  | VAsset a :: rest => Sum.inr (a, rest)
  | [] => Sum.inl []
  | _ :: rest => Sum.inl rest

/-- Modelled from the spec: `popAccount` (vm/stack.go is not under src/). -/
def popAccountS : List Value → Sum (List Value) (String × List Value)
  | VAccount a :: rest => Sum.inr (a, rest)
  | [] => Sum.inl []
  | _ :: rest => Sum.inl rest

/-- Modelled from the spec: `popMonetary` (vm/stack.go is not under src/). -/
def popMonetaryS : List Value → Sum (List Value) ((String × Nat) × List Value)
  | VMonetary a n :: rest => Sum.inr ((a, n), rest)
  | [] => Sum.inl []
  | _ :: rest => Sum.inl rest

/-- Modelled from the spec: `popFunding` (vm/stack.go is not under src/). -/
def popFundingS : List Value → Sum (List Value) (Funding × List Value)
  | VFunding f :: rest => Sum.inr (f, rest)
  | [] => Sum.inl []
  | _ :: rest => Sum.inl rest

/-- Modelled from the spec: `popString` (vm/stack.go is not under src/). -/
def popStringS : List Value → Sum (List Value) (String × List Value)
  | VString a :: rest => Sum.inr (a, rest)
  | [] => Sum.inl []
  | _ :: rest => Sum.inl rest

/-- Modelled from the spec: `popPortion` (vm/stack.go is not under src/). -/
def popPortionS : List Value → Sum (List Value) (Option Rat × List Value)
  | VPortion p :: rest => Sum.inr (p, rest)
  | [] => Sum.inl []
  | _ :: rest => Sum.inl rest

/-- Opcode byte values (vm/program/opcodes.go is not under src/; the values
are fixed here as distinct bytes, in machine.go's dispatch order). -/
def OP_APUSH : Nat := 0

/-- `OP_IPUSH`. -/
def OP_IPUSH : Nat := 1

/-- `OP_BUMP`. -/
def OP_BUMP : Nat := 2

/-- `OP_IADD`. -/
def OP_IADD : Nat := 3

/-- `OP_ISUB`. -/
def OP_ISUB : Nat := 4

/-- `OP_PRINT`. -/
def OP_PRINT : Nat := 5

/-- `OP_FAIL`. -/
def OP_FAIL : Nat := 6

/-- `OP_ASSET`. -/
def OP_ASSET : Nat := 7

/-- `OP_MONETARY_NEW`. -/
def OP_MONETARY_NEW : Nat := 8

/-- `OP_MONETARY_ADD`. -/
def OP_MONETARY_ADD : Nat := 9

/-- `OP_MAKE_ALLOTMENT`. -/
def OP_MAKE_ALLOTMENT : Nat := 10

/-- `OP_TAKE_ALL`. -/
def OP_TAKE_ALL : Nat := 11

/-- `OP_TAKE`. -/
def OP_TAKE : Nat := 12

/-- `OP_TAKE_MAX`. -/
def OP_TAKE_MAX : Nat := 13

/-- `OP_FUNDING_ASSEMBLE`. -/
def OP_FUNDING_ASSEMBLE : Nat := 14

/-- `OP_FUNDING_SUM`. -/
def OP_FUNDING_SUM : Nat := 15

/-- `OP_FUNDING_REVERSE`. -/
def OP_FUNDING_REVERSE : Nat := 16

/-- `OP_ALLOC`. -/
def OP_ALLOC : Nat := 17

/-- `OP_REPAY`. -/
def OP_REPAY : Nat := 18

/-- `OP_SEND`. -/
def OP_SEND : Nat := 19

/-- `OP_TX_META`. -/
def OP_TX_META : Nat := 20

/-- Modelled from the spec: `core.NewAllotment` (core/allotment.go is not
under src/).  Per §3 and §4.2 an allotment is an ordered sequence of
non-negative rationals summing to exactly 1; a `remaining` portion fills
whatever the specific portions leave, and the construction fails when the
portions cannot sum to 1. -/
def NewAllotment (portions : List (Option Rat)) : Option (List Rat) :=
  let specTotal : Rat := (portions.filterMap id).foldl (· + ·) 0
  let remainingCount := (portions.filter fun p => p.isNone).length
  if remainingCount = 0 then
    if specTotal = 1 then some (portions.filterMap id) else none
  else if remainingCount = 1 then
    if specTotal ≤ 1 then some (portions.map fun p => p.getD (1 - specTotal)) else none
  else none

/-- Modelled from the spec: `Allotment.Allocate` (core/allotment.go is not
under src/).  §4.6: each portion gets `floor(T·pᵢ)`, and the unit remainder
`T − Σ floor` is distributed one by one starting from the largest fractional
remainder, ties broken by index order. -/
def Allocate (portions : List Rat) (total : Nat) : List Nat :=
  let scaled : List Rat := portions.map fun p => p * (total : Rat)
  let floors : List Nat := scaled.map fun q => q.floor.toNat
  let fracs : List Rat := scaled.map fun q => q - (q.floor : Rat)
  let leftover := total - floors.sum
  let rank := fun (i : Nat) =>
    ((List.range portions.length).filter fun j =>
      decide (fracs.getD i 0 < fracs.getD j 0 ∨
              (fracs.getD j 0 = fracs.getD i 0 ∧ j < i))).length
  (List.range portions.length).map fun i =>
    if rank i < leftover then floors.getD i 0 + 1 else floors.getD i 0

/-- Decode `count` little-endian instruction bytes starting at index `at_`
(`binary.LittleEndian.Uint16` / `Uint64` in machine.go); `none` when the Go
slice `Instructions[at_ : at_ + count]` would be out of range. -/
def readLE (prog : List Nat) (at_ count : Nat) : Option Nat :=
  match count with
  | 0 => some 0
  | c + 1 =>
    match prog[at_]?, readLE prog (at_ + 1) c with
    | some b, some rest => some (b + 256 * rest)
    | _, _ => none

/-- The pop loop of `OP_MAKE_ALLOTMENT` (machine.go lines 210-214): pop `n`
portions, top first.  `inl` = stack after a failed pop. -/
def popPortionsLoop : Nat → List Value → Sum (List Value) (List (Option Rat) × List Value)
  | 0, stack => Sum.inr ([], stack)
  | k + 1, stack =>
    match popPortionS stack with
    | Sum.inl st => Sum.inl st
    | Sum.inr (p, st) =>
      match popPortionsLoop k st with
      | Sum.inl st2 => Sum.inl st2
      | Sum.inr (ps, st2) => Sum.inr (p :: ps, st2)

/-- The pop loop of `OP_FUNDING_ASSEMBLE` (machine.go lines 261-267): pop `k`
further fundings, each checked against the asset of the first; `inl` = stack
after a failed pop or after popping a funding of the wrong asset. -/
def popFundingsLoop (asset : String) :
    Nat → List Value → Sum (List Value) (List Funding × List Value)
  | 0, stack => Sum.inr ([], stack)
  | k + 1, stack =>
    match popFundingS stack with
    | Sum.inl st => Sum.inl st
    | Sum.inr (f, st) =>
      if f.asset ≠ asset then Sum.inl st
      else
        match popFundingsLoop asset k st with
        | Sum.inl st2 => Sum.inl st2
        | Sum.inr (fs, st2) => Sum.inr (f :: fs, st2)

/-- The concatenation fold of `OP_FUNDING_ASSEMBLE` (machine.go lines
268-274): starting from an empty finite funding of the first popped funding's
asset, Concat the popped fundings in reverse pop order (`fundings_rev[n-1-i]`),
so the deepest funding is concatenated first. -/
def assembleFold (asset : String) (fs : List Funding) : Option Funding :=
  fs.foldl (fun acc f =>
    match acc with
    | none => none
    | some acc => acc.Concat f) (some ⟨asset, [], false⟩)

/-- The posting loop of `OP_SEND` (machine.go lines 316-328): one posting per
part of the funding, in part order, parts with amount 0 suppressed. -/
def sendPostings (dest : String) (f : Funding) : List Posting :=
  (f.parts.filter fun p => p.amount ≠ 0).map fun p =>
    ⟨p.account, dest, f.asset, p.amount⟩

/-- `2 ^ 63`: a Go `uint64` at or above this is negative as an `int`; `int(n)`
casts in machine.go (BUMP's index, ASSEMBLE's count) then panic. -/
def I64_MIN_AS_U64 : Nat := 2 ^ 63

/-- The common tail of `Machine.tick` (machine.go lines 338-344): `P += 1`,
then if the program counter ran past the last instruction, halt with
`EXIT_OK`, else continue. -/
def finishTick (prog : List Nat) (s : MState) : TickRes :=
  if prog.length ≤ s.P + 1 then TickRes.halt EXIT_OK { s with P := s.P + 1 }
  else TickRes.cont { s with P := s.P + 1 }

/-- A failing early return of `Machine.tick` (`return true, code`): the
program counter is left where it was; only the stack has been consumed. -/
def failTick (code : Nat) (s : MState) (stack : List Value) : TickRes :=
  TickRes.halt code { s with stack := stack }

/-- `Machine.tick` (vm/machine.go lines 133-345): fetch the opcode at `P`,
execute it, advance.  `prog` is `Program.Instructions`, `res` the resolved
resource values.  Opcodes whose byte value is none of the constants above
take Go's `default` branch (`EXIT_FAIL_INVALID`). -/
def tick (prog : List Nat) (res : List Value) (s : MState) : TickRes :=
  match prog[s.P]? with
  | none => TickRes.crash
  | some op =>
    if op = OP_APUSH then
      match readLE prog (s.P + 1) 2 with
      | none => TickRes.crash
      | some addr =>
        match res[addr]? with
        | none => failTick EXIT_FAIL s s.stack
        | some v => finishTick prog { s with stack := v :: s.stack, P := s.P + 2 }
    else if op = OP_IPUSH then
      match readLE prog (s.P + 1) 8 with
      | none => TickRes.crash
      | some v => finishTick prog { s with stack := VNumber v :: s.stack, P := s.P + 8 }
    else if op = OP_BUMP then
      match popNumberS s.stack with
      | Sum.inl st => failTick EXIT_FAIL_INVALID s st
      | Sum.inr (n, st) =>
        if h : n < st.length then
          finishTick prog { s with stack := st.get ⟨n, h⟩ :: st.eraseIdx n }
        else TickRes.crash
    else if op = OP_IADD then
      match popNumberS s.stack with
      | Sum.inl st => failTick EXIT_FAIL_INVALID s st
      | Sum.inr (b, st) =>
        match popNumberS st with
        | Sum.inl st2 => failTick EXIT_FAIL_INVALID s st2
        | Sum.inr (a, st2) =>
          finishTick prog { s with stack := VNumber (uadd a b) :: st2 }
    else if op = OP_ISUB then
      match popNumberS s.stack with
      | Sum.inl st => failTick EXIT_FAIL_INVALID s st
      | Sum.inr (b, st) =>
        match popNumberS st with
        | Sum.inl st2 => failTick EXIT_FAIL_INVALID s st2
        | Sum.inr (a, st2) =>
          finishTick prog { s with stack := VNumber (usub a b) :: st2 }
    else if op = OP_PRINT then
      match popValueS s.stack with
      | Sum.inl st => failTick EXIT_FAIL_INVALID s st
      | Sum.inr (v, st) =>
        finishTick prog { s with stack := st, printed := s.printed ++ [v] }
    else if op = OP_FAIL then
      failTick EXIT_FAIL s s.stack
    else if op = OP_ASSET then
      match popValueS s.stack with
      | Sum.inl st => failTick EXIT_FAIL_INVALID s st
      | Sum.inr (v, st) =>
        match v with
        | VAsset a => finishTick prog { s with stack := VAsset a :: st }
        | VMonetary a _ => finishTick prog { s with stack := VAsset a :: st }
        | VFunding f => finishTick prog { s with stack := VAsset f.asset :: st }
        | _ => failTick EXIT_FAIL_INVALID s st
    else if op = OP_MONETARY_NEW then
      match popNumberS s.stack with
      | Sum.inl st => failTick EXIT_FAIL_INVALID s st
      | Sum.inr (amount, st) =>
        match popAssetS st with
        | Sum.inl st2 => failTick EXIT_FAIL_INVALID s st2
        | Sum.inr (asset, st2) =>
          finishTick prog { s with stack := VMonetary asset amount :: st2 }
    else if op = OP_MONETARY_ADD then
      match popMonetaryS s.stack with
      | Sum.inl st => failTick EXIT_FAIL_INVALID s st
      | Sum.inr (b, st) =>
        match popMonetaryS st with
        | Sum.inl st2 => failTick EXIT_FAIL_INVALID s st2
        | Sum.inr (a, st2) =>
          if a.1 ≠ b.1 then failTick EXIT_FAIL_INVALID s st2
          else finishTick prog { s with stack := VMonetary a.1 (uadd a.2 b.2) :: st2 }
    else if op = OP_MAKE_ALLOTMENT then
      match popNumberS s.stack with
      | Sum.inl st => failTick EXIT_FAIL_INVALID s st
      | Sum.inr (n, st) =>
        if I64_MIN_AS_U64 ≤ n then TickRes.crash
        else
          match popPortionsLoop n st with
          | Sum.inl st2 => failTick EXIT_FAIL_INVALID s st2
          | Sum.inr (portions, st2) =>
            match NewAllotment portions with
            | none => failTick EXIT_FAIL_INVALID s st2
            | some allotment =>
              finishTick prog { s with stack := VAllotment allotment :: st2 }
    else if op = OP_TAKE_ALL then
      match popAssetS s.stack with
      | Sum.inl st => failTick EXIT_FAIL_INVALID s st
      | Sum.inr (asset, st) =>
        match popAccountS st with
        | Sum.inl st2 => failTick EXIT_FAIL_INVALID s st2
        | Sum.inr (account, st2) =>
          match withdrawAll s.balances account asset with
          | none => failTick EXIT_FAIL_INVALID s st2
          | some (funding, bal) =>
            finishTick prog { s with stack := VFunding funding :: st2, balances := bal }
    else if op = OP_TAKE then
      match popMonetaryS s.stack with
      | Sum.inl st => failTick EXIT_FAIL_INVALID s st
      | Sum.inr (mon, st) =>
        match popFundingS st with
        | Sum.inl st2 => failTick EXIT_FAIL_INVALID s st2
        | Sum.inr (funding, st2) =>
          if funding.asset ≠ mon.1 then failTick EXIT_FAIL_INVALID s st2
          else
            match funding.Take mon.2 with
            | none => failTick EXIT_FAIL_INSUFFICIENT_FUNDS s st2
            | some (result, remainder) =>
              finishTick prog
                { s with stack := VFunding result :: VFunding remainder :: st2 }
    else if op = OP_TAKE_MAX then
      match popMonetaryS s.stack with
      | Sum.inl st => failTick EXIT_FAIL_INVALID s st
      | Sum.inr (mon, st) =>
        match popFundingS st with
        | Sum.inl st2 => failTick EXIT_FAIL_INVALID s st2
        | Sum.inr (funding, st2) =>
          if funding.asset ≠ mon.1 then failTick EXIT_FAIL_INVALID s st2
          else
            let tm := funding.TakeMax mon.2
            finishTick prog
              { s with stack := VFunding tm.1 :: VFunding tm.2 :: st2 }
    else if op = OP_FUNDING_ASSEMBLE then
      match popNumberS s.stack with
      | Sum.inl st => failTick EXIT_FAIL_INVALID s st
      | Sum.inr (n, st) =>
        if n = 0 then failTick EXIT_FAIL_INVALID s st
        else if I64_MIN_AS_U64 ≤ n then TickRes.crash
        else
          match popFundingS st with
          | Sum.inl st2 => failTick EXIT_FAIL_INVALID s st2
          | Sum.inr (first, st2) =>
            match popFundingsLoop first.asset (n - 1) st2 with
            | Sum.inl st3 => failTick EXIT_FAIL_INVALID s st3
            | Sum.inr (others, st3) =>
              match assembleFold first.asset ((first :: others).reverse) with
              | none => failTick EXIT_FAIL_INVALID s st3
              | some result =>
                finishTick prog { s with stack := VFunding result :: st3 }
    else if op = OP_FUNDING_SUM then
      match popFundingS s.stack with
      | Sum.inl st => failTick EXIT_FAIL_INVALID s st
      | Sum.inr (funding, st) =>
        match funding.Total with
        | none => failTick EXIT_FAIL_INVALID s st
        | some sum =>
          finishTick prog
            { s with stack :=
                VMonetary funding.asset sum :: VFunding funding :: st }
    else if op = OP_FUNDING_REVERSE then
      match popFundingS s.stack with
      | Sum.inl st => failTick EXIT_FAIL_INVALID s st
      | Sum.inr (funding, st) =>
        match funding.Reverse with
        | none => failTick EXIT_FAIL_INVALID s st
        | some result => finishTick prog { s with stack := VFunding result :: st }
    else if op = OP_ALLOC then
      match popValueS s.stack with
      | Sum.inl st => failTick EXIT_FAIL_INVALID s st
      | Sum.inr (v, st) =>
        match v with
        | VAllotment allotment =>
          match popMonetaryS st with
          | Sum.inl st2 => failTick EXIT_FAIL_INVALID s st2
          | Sum.inr (monetary, st2) =>
            finishTick prog
              { s with stack :=
                  ((Allocate allotment monetary.2).map fun amt =>
                    VMonetary monetary.1 amt) ++ st2 }
        | _ => failTick EXIT_FAIL_INVALID s st
    else if op = OP_REPAY then
      match popFundingS s.stack with
      | Sum.inl st => failTick EXIT_FAIL_INVALID s st
      | Sum.inr (funding, st) =>
        match repay s.balances funding with
        | none => TickRes.crash
        | some bal => finishTick prog { s with stack := st, balances := bal }
    else if op = OP_SEND then
      match popAccountS s.stack with
      | Sum.inl st => failTick EXIT_FAIL_INVALID s st
      | Sum.inr (dest, st) =>
        match popFundingS st with
        | Sum.inl st2 => failTick EXIT_FAIL_INVALID s st2
        | Sum.inr (funding, st2) =>
          finishTick prog
            { s with stack := st2,
                     balances := credit s.balances dest funding,
                     postings := s.postings ++ sendPostings dest funding }
    else if op = OP_TX_META then
      match popStringS s.stack with
      | Sum.inl st => failTick EXIT_FAIL_INVALID s st
      | Sum.inr (k, st) =>
        match popValueS st with
        | Sum.inl st2 => failTick EXIT_FAIL_INVALID s st2
        | Sum.inr (v, st2) =>
          finishTick prog { s with stack := st2, txMeta := updateA s.txMeta k v }
    else
      failTick EXIT_FAIL_INVALID s s.stack

/-- The loop of `Machine.Execute` (vm/machine.go lines 357-366): run `tick`
until it finishes; on finishing with a non-empty stack the exit code degrades
to `EXIT_FAIL_INVALID`.  `fuel` bounds the number of ticks (`none` = fuel ran
out or the Go code panicked). -/
def execLoop (prog : List Nat) (res : List Value) : Nat → MState → Option (Nat × MState)
  | 0, _ => none
  | fuel + 1, s =>
    match tick prog res s with
    | TickRes.halt code s2 =>
      some (if s2.stack ≠ [] then EXIT_FAIL_INVALID else code, s2)
    | TickRes.cont s2 => execLoop prog res fuel s2
    | TickRes.crash => none


/-- The asset view used by `ResolveBalances` (`core.HasAsset`, machine.go line
411; core/value.go is not under src/ — per §4.1 Asset, Monetary and Funding
all expose a "get asset" view). -/
def getAssetView : Value → Option String
  | VAsset a => some a
  | VMonetary a _ => some a
  | VFunding f => some f.asset
  | _ => none

/-- The inner loop of `Machine.ResolveBalances` (vm/machine.go lines 402-434):
for each needed asset address of one account, look the resource up, take its
asset view, and record the oracle's balance (the request/response channel
rendezvous is replaced by the pure `oracle`). -/
def resolveAssets (res : List Value) (oracle : String → String → Nat) (account : String) :
    List (String × Nat) → List Nat → Option (List (String × Nat))
  | inner, [] => some inner
  | inner, addr :: rest =>
    match res[addr]? with
    | none => none
    | some v =>
      match getAssetView v with
      | none => none
      | some asset => resolveAssets res oracle account (updateA inner asset (oracle account asset)) rest

/-- The outer loop of `Machine.ResolveBalances` (vm/machine.go lines 387-441):
build the balances map for every account in `NeededBalances`, skipping
`world`; a resource that is not an account is an error.  Go's map iteration
order is abstracted as the list order of `needed`. -/
def resolveGo (res : List Value) (oracle : String → String → Nat) :
    Balances → List (Nat × List Nat) → Option Balances
  | bal, [] => some bal
  | bal, (addrAcc, assets) :: rest =>
    match res[addrAcc]? with
    | some (VAccount account) =>
      if account = "world" then resolveGo res oracle bal rest
      else
        match resolveAssets res oracle account [] assets with
        | none => none
        | some inner => resolveGo res oracle (updateA bal account inner) rest
    | _ => none

/-- `Machine.ResolveBalances` (vm/machine.go lines 376-444): the balances map
it leaves behind, starting from the fresh empty map of line 387. -/
def resolveBalances (res : List Value) (needed : List (Nat × List Nat))
    (oracle : String → String → Nat) : Option Balances :=
  resolveGo res oracle [] needed

/-- The balances carried by a non-crashed tick result. -/
def TickRes.balOf : TickRes → Option Balances
  | TickRes.halt _ s => some s.balances
  | TickRes.cont s => some s.balances
  | TickRes.crash => none

/-- The balances map has no entry for the account `world`. -/
def noWorld (bal : Balances) : Prop := lookupA bal "world" = none

/-! ## Theorems for the funding algebra claims (C1, C2, C4, C9) -/

theorem splitOf_cons {orig split : List FundingPart} (p : FundingPart)
    (h : SplitOf orig split) : SplitOf (p :: orig) (p :: split) := by
  rcases h with h | ⟨pre, a, x, y, suf, hx, hy, ho, hs⟩
  · exact Or.inl (by rw [h])
  · exact Or.inr ⟨p :: pre, a, x, y, suf, hx, hy, by simp [ho], by simp [hs]⟩

/-- The main inductive content of claim C1: on a list of positive parts, when
the requested amount is at most the total, the withdrawal loop leaves no unmet
rest, the taken parts sum to the request, the remainder parts sum to the rest,
and taken ++ remainder refines the original parts with at most one split. -/
theorem takeParts_spec (ps : List FundingPart) (m : Nat)
    (hpos : ∀ p ∈ ps, 0 < p.amount) (hm : m ≤ sumAmounts ps) :
    (takeParts m ps).2.2 = 0 ∧
    sumAmounts (takeParts m ps).1 = m ∧
    sumAmounts (takeParts m ps).2.1 = sumAmounts ps - m ∧
    SplitOf ps ((takeParts m ps).1 ++ (takeParts m ps).2.1) := by
  induction ps generalizing m with
  | nil =>
    simp only [sumAmounts, Nat.le_zero] at hm
    subst hm
    exact ⟨rfl, rfl, rfl, Or.inl rfl⟩
  | cons p ps ih =>
    by_cases h0 : m = 0
    · subst h0
      simp [takeParts, sumAmounts, SplitOf]
    · by_cases hgt : p.amount > m
      · have hw : takeParts m (p :: ps) =
            ([⟨m, p.account⟩], ⟨p.amount - m, p.account⟩ :: ps, 0) := by
          simp [takeParts, h0, hgt]
        refine ⟨by rw [hw], by rw [hw]; simp [sumAmounts], ?_, ?_⟩
        · rw [hw]
          simp only [sumAmounts]
          omega
        · rw [hw]
          refine Or.inr ⟨[], p.account, m, p.amount - m, ps, by omega, by omega, ?_, by simp⟩
          have hamt : m + (p.amount - m) = p.amount := by omega
          simp [hamt]
      · have hle : p.amount ≤ m := by omega
        have hm' : m - p.amount ≤ sumAmounts ps := by
          simp only [sumAmounts] at hm
          omega
        have hpos' : ∀ q ∈ ps, 0 < q.amount := fun q hq => hpos q (List.mem_cons_of_mem p hq)
        obtain ⟨hrest, htaken, hrem, hsplit⟩ := ih (m - p.amount) hpos' hm'
        refine ⟨?_, ?_, ?_, ?_⟩ <;>
          simp only [takeParts, if_neg h0, if_neg (by omega : ¬ p.amount > m)]
        · exact hrest
        · simp only [sumAmounts, htaken]
          omega
        · simp only [sumAmounts] at hrem ⊢
          omega
        · have : (⟨p.amount, p.account⟩ : FundingPart) = p := rfl
          rw [this]
          exact splitOf_cons p hsplit

/-- When the requested amount covers the whole list, the withdrawal loop takes
every part in full: taken = the original parts, remainder empty. -/
theorem takeParts_all (ps : List FundingPart) (m : Nat)
    (hpos : ∀ p ∈ ps, 0 < p.amount) (hm : sumAmounts ps ≤ m) :
    takeParts m ps = (ps, [], m - sumAmounts ps) := by
  induction ps generalizing m with
  | nil => simp [takeParts, sumAmounts]
  | cons p ps ih =>
    have hp : 0 < p.amount := hpos p (List.mem_cons_self p ps)
    have h0 : m ≠ 0 := by
      simp only [sumAmounts] at hm
      omega
    have hng : ¬ p.amount > m := by
      simp only [sumAmounts] at hm
      omega
    have hpos' : ∀ q ∈ ps, 0 < q.amount := fun q hq => hpos q (List.mem_cons_of_mem p hq)
    have hm' : sumAmounts ps ≤ m - p.amount := by
      simp only [sumAmounts] at hm
      omega
    simp only [takeParts, if_neg h0, if_neg hng, ih (m - p.amount) hpos' hm']
    have : (⟨p.amount, p.account⟩ : FundingPart) = p := rfl
    rw [this]
    simp only [sumAmounts]
    exact congrArg (fun k => (p :: ps, ([] : List FundingPart), k)) (by omega)

/-- C1: For every finite Funding f (infinite=false, all part amounts > 0) and
every amount m with m ≤ Total(f), Take(f, m) succeeds and returns (t, r) such
that Total(t) = m, Total(r) = Total(f) − m, and t.parts followed by r.parts is
an order-preserving partition of f.parts in which at most the part at the
split point is divided into two parts of the same account whose amounts sum to
the original.  (Total here is the specification's `Total(f) = Σ nᵢ`, the exact
sum of the part amounts.) -/
theorem funding_take_finite_spec (f : Funding) (m : Nat)
    (hfin : f.infinite = false) (hpos : ∀ p ∈ f.parts, 0 < p.amount)
    (hm : m ≤ sumAmounts f.parts) :
    ∃ t r, f.Take m = some (t, r) ∧
      t.asset = f.asset ∧ r.asset = f.asset ∧
      sumAmounts t.parts = m ∧
      sumAmounts r.parts = sumAmounts f.parts - m ∧
      SplitOf f.parts (t.parts ++ r.parts) := by
  obtain ⟨hrest, htaken, hrem, hsplit⟩ := takeParts_spec f.parts m hpos hm
  refine ⟨⟨f.asset, (takeParts m f.parts).1, false⟩,
         ⟨f.asset, (takeParts m f.parts).2.1, f.infinite⟩, ?_, rfl, rfl, htaken, hrem, hsplit⟩
  simp [Funding.Take, hrest]

/-- Witness for C1 at the concrete funding of the repository's own test
`TestFundingTake`: parts (aaa,70) (bbb,30) (ccc,50), withdrawing 80. -/
theorem funding_take_finite_spec_witness :
    ∃ t r, Funding.Take ⟨"COIN", [⟨70, "aaa"⟩, ⟨30, "bbb"⟩, ⟨50, "ccc"⟩], false⟩ 80
        = some (t, r) ∧
      t.asset = "COIN" ∧ r.asset = "COIN" ∧
      sumAmounts t.parts = 80 ∧
      sumAmounts r.parts =
        sumAmounts [(⟨70, "aaa"⟩ : FundingPart), ⟨30, "bbb"⟩, ⟨50, "ccc"⟩] - 80 ∧
      SplitOf [⟨70, "aaa"⟩, ⟨30, "bbb"⟩, ⟨50, "ccc"⟩] (t.parts ++ r.parts) :=
  funding_take_finite_spec ⟨"COIN", [⟨70, "aaa"⟩, ⟨30, "bbb"⟩, ⟨50, "ccc"⟩], false⟩ 80
    rfl (by decide) (by decide)

/-- C4: For every finite Funding f with all part amounts > 0 and every amount
m, TakeMax(f, m) returns exactly the (taken, remainder) pair that
Take(f, min(m, Total(f))) returns, and TakeMax never fails on a finite funding
(TakeMax is a total function and the Take on the right succeeds). -/
theorem funding_takeMax_eq_take_min (f : Funding) (m : Nat)
    (hfin : f.infinite = false) (hpos : ∀ p ∈ f.parts, 0 < p.amount) :
    f.Take (min m (sumAmounts f.parts)) = some (f.TakeMax m) := by
  by_cases hle : m ≤ sumAmounts f.parts
  · rw [min_eq_left hle]
    obtain ⟨hrest, -, -, -⟩ := takeParts_spec f.parts m hpos hle
    simp [Funding.Take, Funding.TakeMax, hrest, hfin]
  · have hge : sumAmounts f.parts ≤ m := by omega
    rw [min_eq_right hge]
    have hall_m := takeParts_all f.parts m hpos hge
    have hall_t := takeParts_all f.parts (sumAmounts f.parts) hpos (le_refl _)
    simp [Funding.Take, Funding.TakeMax, hall_m, hall_t, hfin]

/-- Witness for C4 at a concrete finite funding with m greater than the total
(the saturating case of the repository's test `TestFundingTakeMaxUnder`). -/
theorem funding_takeMax_eq_take_min_witness :
    Funding.Take ⟨"COIN", [⟨30, "aaa"⟩], false⟩
        (min 80 (sumAmounts [(⟨30, "aaa"⟩ : FundingPart)]))
      = some (Funding.TakeMax ⟨"COIN", [⟨30, "aaa"⟩], false⟩ 80) :=
  funding_takeMax_eq_take_min ⟨"COIN", [⟨30, "aaa"⟩], false⟩ 80 rfl (by decide)

/-- C2, counterexample: with f finite and g infinite, Concat keeps g's parts
(appending them after f's), while the claim says g.parts are dropped whenever
either side is infinite.  At this input the claim demands parts [(1, "a")]. -/
theorem funding_concat_infinite_counterexample :
    Funding.Concat ⟨"C", [⟨1, "a"⟩], false⟩ ⟨"C", [⟨2, "b"⟩], true⟩
        = some ⟨"C", [⟨1, "a"⟩, ⟨2, "b"⟩], true⟩ ∧
      ([⟨1, "a"⟩, ⟨2, "b"⟩] : List FundingPart) ≠ [⟨1, "a"⟩] := by
  constructor
  · rfl
  · decide

/-- C2 as amended: Concat of same-asset fundings with at least one side
infinite returns an infinite Funding; g.parts are dropped only when f itself
is infinite — when only g is infinite, f.parts and g.parts are still
concatenated (with the usual boundary merge). -/
theorem funding_concat_infinite_amended (f g : Funding)
    (hasset : f.asset = g.asset) (hinf : f.infinite = true ∨ g.infinite = true) :
    f.Concat g = some ⟨f.asset,
      if f.infinite then f.parts else concatParts f.parts g.parts, true⟩ := by
  have hor : (f.infinite || g.infinite) = true := by
    rcases hinf with h | h <;> simp [h]
  by_cases hf : f.infinite = true
  · simp [Funding.Concat, hasset, hf, hor]
  · simp only [Bool.not_eq_true] at hf
    simp [Funding.Concat, hasset, hf] at hor ⊢
    exact hor

/-- Witness for C2's amended theorem: an infinite left funding concatenated
with a finite right funding keeps only its own parts. -/
theorem funding_concat_infinite_amended_witness :
    Funding.Concat ⟨"C", [⟨3, "x"⟩], true⟩ ⟨"C", [⟨4, "y"⟩], false⟩
      = some ⟨"C",
        if (true : Bool) then [⟨3, "x"⟩] else concatParts [⟨3, "x"⟩] [⟨4, "y"⟩],
        true⟩ :=
  funding_concat_infinite_amended ⟨"C", [⟨3, "x"⟩], true⟩ ⟨"C", [⟨4, "y"⟩], false⟩
    rfl (Or.inl rfl)

/-- The element loop of Equals decides list equality once the lengths agree. -/
theorem eqPartsLoop_iff (ps qs : List FundingPart) (hlen : ps.length = qs.length) :
    eqPartsLoop ps qs = true ↔ ps = qs := by
  induction ps generalizing qs with
  | nil =>
    cases qs with
    | nil => simp [eqPartsLoop]
    | cons q qs => simp at hlen
  | cons p ps ih =>
    cases qs with
    | nil => simp at hlen
    | cons q qs =>
      simp only [List.length_cons, Nat.add_right_cancel_iff] at hlen
      simp [eqPartsLoop, ih qs hlen]

/-- C9, counterexample: two Fundings that differ only in the infinite flag are
reported equal by Equals (the claim says they must not be). -/
theorem funding_equals_counterexample :
    Funding.Equals ⟨"C", [], false⟩ ⟨"C", [], true⟩ = true ∧
      (Funding.mk "C" [] false).infinite ≠ (Funding.mk "C" [] true).infinite := by
  constructor
  · rfl
  · decide

/-- C9 as amended: Funding equality is structural over the asset and the parts
sequence only: Equals(lhs, rhs) = true iff the assets are equal and the parts
are equal element by element; the infinite flag is ignored, so two Fundings
that differ only in the infinite flag are reported equal. -/
theorem funding_equals_amended (lhs rhs : Funding) :
    lhs.Equals rhs = true ↔ lhs.asset = rhs.asset ∧ lhs.parts = rhs.parts := by
  unfold Funding.Equals
  by_cases ha : lhs.asset = rhs.asset
  · by_cases hl : lhs.parts.length = rhs.parts.length
    · simp [ha, hl, eqPartsLoop_iff lhs.parts rhs.parts hl]
    · have hne : lhs.parts ≠ rhs.parts := fun hc => hl (by rw [hc])
      simp [ha, hl, hne]
  · simp [ha]

/-! ## Theorems for the virtual machine claims -/

theorem failTick_halt {code : Nat} {s : MState} {st : List Value} {c : Nat} {s1 : MState}
    (h : failTick code s st = TickRes.halt c s1) : c = code ∧ s1 = { s with stack := st } := by
  unfold failTick at h
  injection h with h1 h2
  exact ⟨h1.symm, h2.symm⟩

theorem finishTick_halt {prog : List Nat} {s : MState} {c : Nat} {s1 : MState}
    (h : finishTick prog s = TickRes.halt c s1) : c = EXIT_OK := by
  unfold finishTick at h
  split at h
  · injection h with h1 _
    exact h1.symm
  · exact absurd h (by intro hc; exact TickRes.noConfusion hc)

/-- Any halting tick either halted through the normal completion path (exit
code `EXIT_OK`, the program counter having run past the end) or through an
early failing return, which leaves the program counter where it was — at an
instruction that exists. -/
theorem tick_halt_P {prog : List Nat} {res : List Value} {s : MState} {c : Nat} {s1 : MState}
    (h : tick prog res s = TickRes.halt c s1) :
    c = EXIT_OK ∨ (s1.P = s.P ∧ s.P < prog.length) := by
  have hop : ∀ {op : Nat}, prog[s.P]? = some op → s.P < prog.length := by
    intro op hsome
    by_contra hge
    rw [List.getElem?_eq_none (by omega)] at hsome
    exact Option.noConfusion hsome
  unfold tick at h
  split at h
  · exact TickRes.noConfusion h
  · rename_i op heq
    have hlt : s.P < prog.length := hop heq
    by_cases hc0 : op = OP_APUSH
    · rw [if_pos hc0] at h
      repeat' split at h
      all_goals
        first
        | exact TickRes.noConfusion h
        | exact Or.inl (finishTick_halt h)
        | exact Or.inr ⟨by rw [(failTick_halt h).2], hlt⟩
    rw [if_neg hc0] at h
    by_cases hc1 : op = OP_IPUSH
    · rw [if_pos hc1] at h
      repeat' split at h
      all_goals
        first
        | exact TickRes.noConfusion h
        | exact Or.inl (finishTick_halt h)
        | exact Or.inr ⟨by rw [(failTick_halt h).2], hlt⟩
    rw [if_neg hc1] at h
    by_cases hc2 : op = OP_BUMP
    · rw [if_pos hc2] at h
      repeat' split at h
      all_goals
        first
        | exact TickRes.noConfusion h
        | exact Or.inl (finishTick_halt h)
        | exact Or.inr ⟨by rw [(failTick_halt h).2], hlt⟩
    rw [if_neg hc2] at h
    by_cases hc3 : op = OP_IADD
    · rw [if_pos hc3] at h
      repeat' split at h
      all_goals
        first
        | exact TickRes.noConfusion h
        | exact Or.inl (finishTick_halt h)
        | exact Or.inr ⟨by rw [(failTick_halt h).2], hlt⟩
    rw [if_neg hc3] at h
    by_cases hc4 : op = OP_ISUB
    · rw [if_pos hc4] at h
      repeat' split at h
      all_goals
        first
        | exact TickRes.noConfusion h
        | exact Or.inl (finishTick_halt h)
        | exact Or.inr ⟨by rw [(failTick_halt h).2], hlt⟩
    rw [if_neg hc4] at h
    by_cases hc5 : op = OP_PRINT
    · rw [if_pos hc5] at h
      repeat' split at h
      all_goals
        first
        | exact TickRes.noConfusion h
        | exact Or.inl (finishTick_halt h)
        | exact Or.inr ⟨by rw [(failTick_halt h).2], hlt⟩
    rw [if_neg hc5] at h
    by_cases hc6 : op = OP_FAIL
    · rw [if_pos hc6] at h
      repeat' split at h
      all_goals
        first
        | exact TickRes.noConfusion h
        | exact Or.inl (finishTick_halt h)
        | exact Or.inr ⟨by rw [(failTick_halt h).2], hlt⟩
    rw [if_neg hc6] at h
    by_cases hc7 : op = OP_ASSET
    · rw [if_pos hc7] at h
      repeat' split at h
      all_goals
        first
        | exact TickRes.noConfusion h
        | exact Or.inl (finishTick_halt h)
        | exact Or.inr ⟨by rw [(failTick_halt h).2], hlt⟩
    rw [if_neg hc7] at h
    by_cases hc8 : op = OP_MONETARY_NEW
    · rw [if_pos hc8] at h
      repeat' split at h
      all_goals
        first
        | exact TickRes.noConfusion h
        | exact Or.inl (finishTick_halt h)
        | exact Or.inr ⟨by rw [(failTick_halt h).2], hlt⟩
    rw [if_neg hc8] at h
    by_cases hc9 : op = OP_MONETARY_ADD
    · rw [if_pos hc9] at h
      repeat' split at h
      all_goals
        first
        | exact TickRes.noConfusion h
        | exact Or.inl (finishTick_halt h)
        | exact Or.inr ⟨by rw [(failTick_halt h).2], hlt⟩
    rw [if_neg hc9] at h
    by_cases hc10 : op = OP_MAKE_ALLOTMENT
    · rw [if_pos hc10] at h
      repeat' split at h
      all_goals
        first
        | exact TickRes.noConfusion h
        | exact Or.inl (finishTick_halt h)
        | exact Or.inr ⟨by rw [(failTick_halt h).2], hlt⟩
    rw [if_neg hc10] at h
    by_cases hc11 : op = OP_TAKE_ALL
    · rw [if_pos hc11] at h
      repeat' split at h
      all_goals
        first
        | exact TickRes.noConfusion h
        | exact Or.inl (finishTick_halt h)
        | exact Or.inr ⟨by rw [(failTick_halt h).2], hlt⟩
    rw [if_neg hc11] at h
    by_cases hc12 : op = OP_TAKE
    · rw [if_pos hc12] at h
      repeat' split at h
      all_goals
        first
        | exact TickRes.noConfusion h
        | exact Or.inl (finishTick_halt h)
        | exact Or.inr ⟨by rw [(failTick_halt h).2], hlt⟩
    rw [if_neg hc12] at h
    by_cases hc13 : op = OP_TAKE_MAX
    · rw [if_pos hc13] at h
      repeat' split at h
      all_goals
        first
        | exact TickRes.noConfusion h
        | exact Or.inl (finishTick_halt h)
        | exact Or.inr ⟨by rw [(failTick_halt h).2], hlt⟩
    rw [if_neg hc13] at h
    by_cases hc14 : op = OP_FUNDING_ASSEMBLE
    · rw [if_pos hc14] at h
      repeat' split at h
      all_goals
        first
        | exact TickRes.noConfusion h
        | exact Or.inl (finishTick_halt h)
        | exact Or.inr ⟨by rw [(failTick_halt h).2], hlt⟩
    rw [if_neg hc14] at h
    by_cases hc15 : op = OP_FUNDING_SUM
    · rw [if_pos hc15] at h
      repeat' split at h
      all_goals
        first
        | exact TickRes.noConfusion h
        | exact Or.inl (finishTick_halt h)
        | exact Or.inr ⟨by rw [(failTick_halt h).2], hlt⟩
    rw [if_neg hc15] at h
    by_cases hc16 : op = OP_FUNDING_REVERSE
    · rw [if_pos hc16] at h
      repeat' split at h
      all_goals
        first
        | exact TickRes.noConfusion h
        | exact Or.inl (finishTick_halt h)
        | exact Or.inr ⟨by rw [(failTick_halt h).2], hlt⟩
    rw [if_neg hc16] at h
    by_cases hc17 : op = OP_ALLOC
    · rw [if_pos hc17] at h
      repeat' split at h
      all_goals
        first
        | exact TickRes.noConfusion h
        | exact Or.inl (finishTick_halt h)
        | exact Or.inr ⟨by rw [(failTick_halt h).2], hlt⟩
    rw [if_neg hc17] at h
    by_cases hc18 : op = OP_REPAY
    · rw [if_pos hc18] at h
      repeat' split at h
      all_goals
        first
        | exact TickRes.noConfusion h
        | exact Or.inl (finishTick_halt h)
        | exact Or.inr ⟨by rw [(failTick_halt h).2], hlt⟩
    rw [if_neg hc18] at h
    by_cases hc19 : op = OP_SEND
    · rw [if_pos hc19] at h
      repeat' split at h
      all_goals
        first
        | exact TickRes.noConfusion h
        | exact Or.inl (finishTick_halt h)
        | exact Or.inr ⟨by rw [(failTick_halt h).2], hlt⟩
    rw [if_neg hc19] at h
    by_cases hc20 : op = OP_TX_META
    · rw [if_pos hc20] at h
      repeat' split at h
      all_goals
        first
        | exact TickRes.noConfusion h
        | exact Or.inl (finishTick_halt h)
        | exact Or.inr ⟨by rw [(failTick_halt h).2], hlt⟩
    rw [if_neg hc20] at h
    exact Or.inr ⟨by rw [(failTick_halt h).2], hlt⟩

theorem lookupA_updateA_ne {α : Type} (b : List (String × α)) (k key : String) (v : α)
    (hne : k ≠ key) : lookupA (updateA b k v) key = lookupA b key := by
  induction b with
  | nil => simp [lookupA, updateA, hne]
  | cons kv rest ih =>
    obtain ⟨k2, w⟩ := kv
    by_cases hk : k2 = k
    · simp [lookupA, updateA, hk, hne]
    · simp only [updateA, if_neg hk, lookupA]
      by_cases hkey : k2 = key
      · simp [lookupA, hkey]
      · simp [lookupA, hkey, ih]

theorem noWorld_withdrawAll {bal : Balances} {account asset : String}
    {funding : Funding} {bal2 : Balances}
    (h : withdrawAll bal account asset = some (funding, bal2)) (hw : noWorld bal) :
    noWorld bal2 := by
  unfold withdrawAll at h
  split at h
  · injection h with h1
    injection h1 with _ h2
    rw [← h2]
    exact hw
  · rename_i hacc
    split at h
    · split at h
      · injection h with h1
        injection h1 with _ h2
        rw [← h2]
        unfold noWorld
        rw [lookupA_updateA_ne _ _ _ _ (by intro hx; exact hacc hx)]
        exact hw
      · exact Option.noConfusion h
    · exact Option.noConfusion h

theorem noWorld_credit (bal : Balances) (account : String) (funding : Funding)
    (hw : noWorld bal) : noWorld (credit bal account funding) := by
  unfold credit
  split
  · exact hw
  · rename_i hacc
    split
    · split
      · unfold noWorld
        rw [lookupA_updateA_ne _ _ _ _ (by intro hx; exact hacc hx)]
        exact hw
      · exact hw
    · exact hw

theorem noWorld_repayGo {asset : String} {ps : List FundingPart} :
    ∀ {bal bal2 : Balances}, repayGo bal asset ps = some bal2 → noWorld bal → noWorld bal2 := by
  induction ps with
  | nil =>
    intro bal bal2 h hw
    injection h with h1
    rw [← h1]
    exact hw
  | cons p ps ih =>
    intro bal bal2 h hw
    unfold repayGo at h
    split at h
    · exact ih h hw
    · rename_i hacc
      split at h
      · exact Option.noConfusion h
      · refine ih h ?_
        unfold noWorld
        rw [lookupA_updateA_ne _ _ _ _ (by intro hx; exact hacc hx)]
        exact hw

theorem noWorld_repay {bal : Balances} {funding : Funding} {bal2 : Balances}
    (h : repay bal funding = some bal2) (hw : noWorld bal) : noWorld bal2 :=
  noWorld_repayGo h hw

theorem finishTick_balOf (prog : List Nat) (s : MState) :
    (finishTick prog s).balOf = some s.balances := by
  unfold finishTick
  split <;> rfl

theorem failTick_balOf (code : Nat) (s : MState) (st : List Value) :
    (failTick code s st).balOf = some s.balances := rfl

/-- One tick preserves the absence of a `world` entry in the balances map:
balances change only through `withdrawAll` (TAKE_ALL), `repay` (REPAY) and
`credit` (SEND), none of which inserts a `world` key. -/
theorem tick_noWorld {prog : List Nat} {res : List Value} {s : MState} {b : Balances}
    (hb : (tick prog res s).balOf = some b) (hw : noWorld s.balances) : noWorld b := by
  unfold tick at hb
  split at hb
  · exact Option.noConfusion hb
  · rename_i op heq
    by_cases hc0 : op = OP_APUSH
    · rw [if_pos hc0] at hb
      repeat' split at hb
      all_goals
        first
        | exact Option.noConfusion hb
        | (rw [finishTick_balOf] at hb
           exact Option.some.inj hb ▸ hw)
        | (rw [failTick_balOf] at hb
           exact Option.some.inj hb ▸ hw)
    rw [if_neg hc0] at hb
    by_cases hc1 : op = OP_IPUSH
    · rw [if_pos hc1] at hb
      repeat' split at hb
      all_goals
        first
        | exact Option.noConfusion hb
        | (rw [finishTick_balOf] at hb
           exact Option.some.inj hb ▸ hw)
        | (rw [failTick_balOf] at hb
           exact Option.some.inj hb ▸ hw)
    rw [if_neg hc1] at hb
    by_cases hc2 : op = OP_BUMP
    · rw [if_pos hc2] at hb
      repeat' split at hb
      all_goals
        first
        | exact Option.noConfusion hb
        | (rw [finishTick_balOf] at hb
           exact Option.some.inj hb ▸ hw)
        | (rw [failTick_balOf] at hb
           exact Option.some.inj hb ▸ hw)
    rw [if_neg hc2] at hb
    by_cases hc3 : op = OP_IADD
    · rw [if_pos hc3] at hb
      repeat' split at hb
      all_goals
        first
        | exact Option.noConfusion hb
        | (rw [finishTick_balOf] at hb
           exact Option.some.inj hb ▸ hw)
        | (rw [failTick_balOf] at hb
           exact Option.some.inj hb ▸ hw)
    rw [if_neg hc3] at hb
    by_cases hc4 : op = OP_ISUB
    · rw [if_pos hc4] at hb
      repeat' split at hb
      all_goals
        first
        | exact Option.noConfusion hb
        | (rw [finishTick_balOf] at hb
           exact Option.some.inj hb ▸ hw)
        | (rw [failTick_balOf] at hb
           exact Option.some.inj hb ▸ hw)
    rw [if_neg hc4] at hb
    by_cases hc5 : op = OP_PRINT
    · rw [if_pos hc5] at hb
      repeat' split at hb
      all_goals
        first
        | exact Option.noConfusion hb
        | (rw [finishTick_balOf] at hb
           exact Option.some.inj hb ▸ hw)
        | (rw [failTick_balOf] at hb
           exact Option.some.inj hb ▸ hw)
    rw [if_neg hc5] at hb
    by_cases hc6 : op = OP_FAIL
    · rw [if_pos hc6] at hb
      repeat' split at hb
      all_goals
        first
        | exact Option.noConfusion hb
        | (rw [finishTick_balOf] at hb
           exact Option.some.inj hb ▸ hw)
        | (rw [failTick_balOf] at hb
           exact Option.some.inj hb ▸ hw)
    rw [if_neg hc6] at hb
    by_cases hc7 : op = OP_ASSET
    · rw [if_pos hc7] at hb
      repeat' split at hb
      all_goals
        first
        | exact Option.noConfusion hb
        | (rw [finishTick_balOf] at hb
           exact Option.some.inj hb ▸ hw)
        | (rw [failTick_balOf] at hb
           exact Option.some.inj hb ▸ hw)
    rw [if_neg hc7] at hb
    by_cases hc8 : op = OP_MONETARY_NEW
    · rw [if_pos hc8] at hb
      repeat' split at hb
      all_goals
        first
        | exact Option.noConfusion hb
        | (rw [finishTick_balOf] at hb
           exact Option.some.inj hb ▸ hw)
        | (rw [failTick_balOf] at hb
           exact Option.some.inj hb ▸ hw)
    rw [if_neg hc8] at hb
    by_cases hc9 : op = OP_MONETARY_ADD
    · rw [if_pos hc9] at hb
      repeat' split at hb
      all_goals
        first
        | exact Option.noConfusion hb
        | (rw [finishTick_balOf] at hb
           exact Option.some.inj hb ▸ hw)
        | (rw [failTick_balOf] at hb
           exact Option.some.inj hb ▸ hw)
    rw [if_neg hc9] at hb
    by_cases hc10 : op = OP_MAKE_ALLOTMENT
    · rw [if_pos hc10] at hb
      repeat' split at hb
      all_goals
        first
        | exact Option.noConfusion hb
        | (rw [finishTick_balOf] at hb
           exact Option.some.inj hb ▸ hw)
        | (rw [failTick_balOf] at hb
           exact Option.some.inj hb ▸ hw)
    rw [if_neg hc10] at hb
    by_cases hc11 : op = OP_TAKE_ALL
    · rw [if_pos hc11] at hb
      repeat' split at hb
      all_goals
        first
        | exact Option.noConfusion hb
        | (rw [failTick_balOf] at hb
           exact Option.some.inj hb ▸ hw)
        | (rename_i funding bal heq
           rw [finishTick_balOf] at hb
           exact Option.some.inj hb ▸ noWorld_withdrawAll heq hw)
    rw [if_neg hc11] at hb
    by_cases hc12 : op = OP_TAKE
    · rw [if_pos hc12] at hb
      repeat' split at hb
      all_goals
        first
        | exact Option.noConfusion hb
        | (rw [finishTick_balOf] at hb
           exact Option.some.inj hb ▸ hw)
        | (rw [failTick_balOf] at hb
           exact Option.some.inj hb ▸ hw)
    rw [if_neg hc12] at hb
    by_cases hc13 : op = OP_TAKE_MAX
    · rw [if_pos hc13] at hb
      repeat' split at hb
      all_goals
        first
        | exact Option.noConfusion hb
        | (rw [finishTick_balOf] at hb
           exact Option.some.inj hb ▸ hw)
        | (rw [failTick_balOf] at hb
           exact Option.some.inj hb ▸ hw)
    rw [if_neg hc13] at hb
    by_cases hc14 : op = OP_FUNDING_ASSEMBLE
    · rw [if_pos hc14] at hb
      repeat' split at hb
      all_goals
        first
        | exact Option.noConfusion hb
        | (rw [finishTick_balOf] at hb
           exact Option.some.inj hb ▸ hw)
        | (rw [failTick_balOf] at hb
           exact Option.some.inj hb ▸ hw)
    rw [if_neg hc14] at hb
    by_cases hc15 : op = OP_FUNDING_SUM
    · rw [if_pos hc15] at hb
      repeat' split at hb
      all_goals
        first
        | exact Option.noConfusion hb
        | (rw [finishTick_balOf] at hb
           exact Option.some.inj hb ▸ hw)
        | (rw [failTick_balOf] at hb
           exact Option.some.inj hb ▸ hw)
    rw [if_neg hc15] at hb
    by_cases hc16 : op = OP_FUNDING_REVERSE
    · rw [if_pos hc16] at hb
      repeat' split at hb
      all_goals
        first
        | exact Option.noConfusion hb
        | (rw [finishTick_balOf] at hb
           exact Option.some.inj hb ▸ hw)
        | (rw [failTick_balOf] at hb
           exact Option.some.inj hb ▸ hw)
    rw [if_neg hc16] at hb
    by_cases hc17 : op = OP_ALLOC
    · rw [if_pos hc17] at hb
      repeat' split at hb
      all_goals
        first
        | exact Option.noConfusion hb
        | (rw [finishTick_balOf] at hb
           exact Option.some.inj hb ▸ hw)
        | (rw [failTick_balOf] at hb
           exact Option.some.inj hb ▸ hw)
    rw [if_neg hc17] at hb
    by_cases hc18 : op = OP_REPAY
    · rw [if_pos hc18] at hb
      repeat' split at hb
      all_goals
        first
        | exact Option.noConfusion hb
        | (rw [failTick_balOf] at hb
           exact Option.some.inj hb ▸ hw)
        | (rename_i bal heq
           rw [finishTick_balOf] at hb
           exact Option.some.inj hb ▸ noWorld_repay heq hw)
    rw [if_neg hc18] at hb
    by_cases hc19 : op = OP_SEND
    · rw [if_pos hc19] at hb
      repeat' split at hb
      all_goals
        first
        | exact Option.noConfusion hb
        | (rw [failTick_balOf] at hb
           exact Option.some.inj hb ▸ hw)
        | (rw [finishTick_balOf] at hb
           exact Option.some.inj hb ▸ noWorld_credit _ _ _ hw)
    rw [if_neg hc19] at hb
    by_cases hc20 : op = OP_TX_META
    · rw [if_pos hc20] at hb
      repeat' split at hb
      all_goals
        first
        | exact Option.noConfusion hb
        | (rw [finishTick_balOf] at hb
           exact Option.some.inj hb ▸ hw)
        | (rw [failTick_balOf] at hb
           exact Option.some.inj hb ▸ hw)
    rw [if_neg hc20] at hb
    rw [failTick_balOf] at hb
    exact Option.some.inj hb ▸ hw

theorem execLoop_noWorld {prog : List Nat} {res : List Value} :
    ∀ {fuel : Nat} {s : MState} {code : Nat} {s1 : MState},
    execLoop prog res fuel s = some (code, s1) → noWorld s.balances → noWorld s1.balances := by
  intro fuel
  induction fuel with
  | zero => exact fun h _ => Option.noConfusion h
  | succ fuel ih =>
    intro s code s1 h hw
    unfold execLoop at h
    split at h
    · rename_i code2 s2 heq
      injection h with hpair
      injection hpair with _ hs
      rw [← hs]
      exact tick_noWorld (by rw [heq]; rfl) hw
    · rename_i s2 heq
      exact ih h (tick_noWorld (by rw [heq]; rfl) hw)
    · exact Option.noConfusion h

theorem noWorld_resolveGo {res : List Value} {oracle : String → String → Nat} :
    ∀ {needed : List (Nat × List Nat)} {bal bal2 : Balances},
    resolveGo res oracle bal needed = some bal2 → noWorld bal → noWorld bal2 := by
  intro needed
  induction needed with
  | nil =>
    intro bal bal2 h hw
    injection h with h1
    rw [← h1]
    exact hw
  | cons entry rest ih =>
    intro bal bal2 h hw
    obtain ⟨addrAcc, assets⟩ := entry
    unfold resolveGo at h
    split at h
    · rename_i account
      split at h
      · exact ih h hw
      · rename_i hacc
        split at h
        · exact Option.noConfusion h
        · refine ih h ?_
          unfold noWorld
          rw [lookupA_updateA_ne _ _ _ _ (by intro hx; exact hacc hx)]
          exact hw
    · exact Option.noConfusion h

/-- C7: whenever the execute loop finishes with a non-empty operand stack it
returns `EXIT_FAIL_INVALID` regardless of the exit code the last tick
produced; and whenever it finishes with an empty stack and a program counter
past the end of the instructions, it returns `EXIT_OK`. -/
theorem execute_exit_codes {prog : List Nat} {res : List Value} :
    ∀ {fuel : Nat} {s : MState} {code : Nat} {s1 : MState},
    execLoop prog res fuel s = some (code, s1) →
    (s1.stack ≠ [] → code = EXIT_FAIL_INVALID) ∧
    (s1.stack = [] → prog.length ≤ s1.P → code = EXIT_OK) := by
  intro fuel
  induction fuel with
  | zero => exact fun h => Option.noConfusion h
  | succ fuel ih =>
    intro s code s1 h
    unfold execLoop at h
    split at h
    · rename_i code2 s2 heq
      injection h with hpair
      injection hpair with hcode hs
      subst hs
      constructor
      · intro hne
        rw [← hcode, if_pos hne]
      · intro hemp hP
        rw [← hcode, if_neg (by simp [hemp])]
        rcases tick_halt_P heq with hok | ⟨hPeq, hlt⟩
        · exact hok
        · omega
    · exact ih h
    · exact Option.noConfusion h

/-- Witness for C7: a one-instruction program `FAIL` run on a machine whose
stack holds one value finishes with exit code `EXIT_FAIL_INVALID`. -/
theorem execute_exit_codes_witness :
    ((MState.mk 0 [VNumber 0] [] [] [] []).stack ≠ [] →
      EXIT_FAIL_INVALID = EXIT_FAIL_INVALID) ∧
    ((MState.mk 0 [VNumber 0] [] [] [] []).stack = [] →
      ([OP_FAIL] : List Nat).length ≤ (MState.mk 0 [VNumber 0] [] [] [] []).P →
      EXIT_FAIL_INVALID = EXIT_OK) :=
  @execute_exit_codes [OP_FAIL] [] 1 (MState.mk 0 [VNumber 0] [] [] [] [])
    EXIT_FAIL_INVALID (MState.mk 0 [VNumber 0] [] [] [] []) (by decide)

/-- C8: the balances map never contains an entry for the account `world`.
From a state whose balances have no `world` entry: any tick (halt or
continue) preserves the absence, as does the whole execute loop; crediting
`world` (the SEND destination path) leaves the balances unchanged; TAKE_ALL's
`withdrawAll` on `world` produces an infinite Funding with no parts and
returns the balances untouched; and the balances map built by
`ResolveBalances` never gains a `world` entry (the `world` account is
skipped when issuing requests). -/
theorem world_never_tracked (prog : List Nat) (res : List Value) (s : MState)
    (hw : noWorld s.balances) :
    (∀ b, (tick prog res s).balOf = some b → noWorld b) ∧
    (∀ fuel code s1, execLoop prog res fuel s = some (code, s1) → noWorld s1.balances) ∧
    (∀ funding, credit s.balances "world" funding = s.balances) ∧
    (∀ asset, withdrawAll s.balances "world" asset = some (⟨asset, [], true⟩, s.balances)) ∧
    (∀ oracle needed bal2, resolveBalances res needed oracle = some bal2 → noWorld bal2) := by
  refine ⟨?_, ?_, ?_, ?_, ?_⟩
  · exact fun b hb => tick_noWorld hb hw
  · exact fun fuel code s1 h => execLoop_noWorld h hw
  · intro funding
    unfold credit
    rw [if_pos rfl]
  · intro asset
    unfold withdrawAll
    rw [if_pos rfl]
  · exact fun oracle needed bal2 h => noWorld_resolveGo h rfl

/-- Witness for C8 at a concrete machine: one tracked account, one SEND
instruction addressed to `world`. -/
theorem world_never_tracked_witness :
    (∀ b, (tick [OP_SEND] []
        (MState.mk 0 [VAccount "world", VFunding ⟨"C", [⟨5, "aa"⟩], false⟩]
          [("aa", [("C", 1)])] [] [] [])).balOf = some b → noWorld b) ∧
    (∀ fuel code s1, execLoop [OP_SEND] [] fuel
        (MState.mk 0 [VAccount "world", VFunding ⟨"C", [⟨5, "aa"⟩], false⟩]
          [("aa", [("C", 1)])] [] [] []) = some (code, s1) → noWorld s1.balances) ∧
    (∀ funding, credit (MState.mk 0 [VAccount "world", VFunding ⟨"C", [⟨5, "aa"⟩], false⟩]
          [("aa", [("C", 1)])] [] [] []).balances "world" funding
        = (MState.mk 0 [VAccount "world", VFunding ⟨"C", [⟨5, "aa"⟩], false⟩]
          [("aa", [("C", 1)])] [] [] []).balances) ∧
    (∀ asset, withdrawAll (MState.mk 0 [VAccount "world", VFunding ⟨"C", [⟨5, "aa"⟩], false⟩]
          [("aa", [("C", 1)])] [] [] []).balances "world" asset
        = some (⟨asset, [], true⟩, (MState.mk 0 [VAccount "world",
            VFunding ⟨"C", [⟨5, "aa"⟩], false⟩] [("aa", [("C", 1)])] [] [] []).balances)) ∧
    (∀ oracle needed bal2, resolveBalances [] needed oracle = some bal2 → noWorld bal2) :=
  world_never_tracked [OP_SEND] []
    (MState.mk 0 [VAccount "world", VFunding ⟨"C", [⟨5, "aa"⟩], false⟩]
      [("aa", [("C", 1)])] [] [] []) (by unfold noWorld; decide)

theorem foldl_uadd (ps : List FundingPart) :
    ∀ acc : Nat, acc < U64 →
    ps.foldl (fun total p => uadd total p.amount) acc = (acc + sumAmounts ps) % U64 := by
  induction ps with
  | nil =>
    intro acc hacc
    simp only [List.foldl_nil, sumAmounts, Nat.add_zero]
    exact (Nat.mod_eq_of_lt hacc).symm
  | cons p ps ih =>
    intro acc hacc
    have hlt : uadd acc p.amount < U64 := Nat.mod_lt _ (by unfold U64; positivity)
    simp only [List.foldl_cons, ih (uadd acc p.amount) hlt, sumAmounts]
    unfold uadd
    rw [Nat.mod_add_mod]
    congr 1
    omega

/-- For a finite funding, the code's `Total` is the exact sum of the part
amounts reduced modulo `2 ^ 64`. -/
theorem total_eq_sum_mod (f : Funding) (hfin : f.infinite = false) :
    f.Total = some (sumAmounts f.parts % U64) := by
  unfold Funding.Total
  rw [hfin]
  simp only [Bool.false_eq_true, if_false]
  rw [foldl_uadd f.parts 0 (by unfold U64; positivity)]
  simp

/-- C3, counterexample: a funding whose parts sum to `2 ^ 64` (above the
maximum `u64`).  `Funding.Total` returns the wrapped-around sum 0, and
executing FUNDING_SUM on it continues with a Monetary of amount 0 pushed —
the machine does not halt with `EXIT_FAIL_INVALID` as the claim demands. -/
theorem funding_sum_overflow_counterexample :
    Funding.Total ⟨"C", [⟨2 ^ 63, "a"⟩, ⟨2 ^ 63, "b"⟩], false⟩ = some 0 ∧
    tick [OP_FUNDING_SUM, OP_FAIL] []
        (MState.mk 0 [VFunding ⟨"C", [⟨2 ^ 63, "a"⟩, ⟨2 ^ 63, "b"⟩], false⟩] [] [] [] [])
      = TickRes.cont
          (MState.mk 1
            [VMonetary "C" 0, VFunding ⟨"C", [⟨2 ^ 63, "a"⟩, ⟨2 ^ 63, "b"⟩], false⟩]
            [] [] [] []) := by
  constructor
  · decide
  · decide

/-- C3 as amended: the VM's FUNDING_SUM computes the funding total with
wrapping `uint64` addition and pushes the wrapped sum `Σ % 2 ^ 64`; overflow
is not detected and the machine continues.  `EXIT_FAIL_INVALID` is produced at
FUNDING_SUM only for an infinite funding. -/
theorem funding_sum_wraps {prog : List Nat} {res : List Value} {s : MState}
    (f : Funding) (rest : List Value)
    (hop : prog[s.P]? = some OP_FUNDING_SUM)
    (hstack : s.stack = VFunding f :: rest)
    (hfin : f.infinite = false)
    (hcont : s.P + 1 < prog.length) :
    tick prog res s = TickRes.cont
      { s with stack := VMonetary f.asset (sumAmounts f.parts % U64) :: VFunding f :: rest,
               P := s.P + 1 } := by
  unfold tick
  rw [hop, hstack]
  simp only [OP_APUSH, OP_IPUSH, OP_BUMP, OP_IADD, OP_ISUB, OP_PRINT, OP_FAIL, OP_ASSET,
    OP_MONETARY_NEW, OP_MONETARY_ADD, OP_MAKE_ALLOTMENT, OP_TAKE_ALL, OP_TAKE, OP_TAKE_MAX,
    OP_FUNDING_ASSEMBLE, OP_FUNDING_SUM]
  norm_num
  split
  · rename_i st heq
    simp [popFundingS] at heq
  · rename_i funding st heq
    simp only [popFundingS, Sum.inr.injEq, Prod.mk.injEq] at heq
    obtain ⟨hf, hst⟩ := heq
    subst hf
    subst hst
    split
    · rename_i heq2
      rw [total_eq_sum_mod f hfin] at heq2
      exact Option.noConfusion heq2
    · rename_i sum heq2
      rw [total_eq_sum_mod f hfin] at heq2
      injection heq2 with hsum
      subst hsum
      unfold finishTick
      rw [if_neg (by simp; omega)]

/-- Witness for C3's amended theorem at the overflowing funding. -/
theorem funding_sum_wraps_witness :
    tick [OP_FUNDING_SUM, OP_FAIL] []
        (MState.mk 0 [VFunding ⟨"C", [⟨2 ^ 63, "a"⟩, ⟨2 ^ 63, "b"⟩], false⟩] [] [] [] [])
      = TickRes.cont
        { MState.mk 0 [VFunding ⟨"C", [⟨2 ^ 63, "a"⟩, ⟨2 ^ 63, "b"⟩], false⟩] [] [] [] [] with
            stack := VMonetary "C"
                (sumAmounts [(⟨2 ^ 63, "a"⟩ : FundingPart), ⟨2 ^ 63, "b"⟩] % U64) ::
              VFunding ⟨"C", [⟨2 ^ 63, "a"⟩, ⟨2 ^ 63, "b"⟩], false⟩ :: [],
            P := 0 + 1 } :=
  funding_sum_wraps ⟨"C", [⟨2 ^ 63, "a"⟩, ⟨2 ^ 63, "b"⟩], false⟩ [] rfl rfl rfl (by decide)

/-- C5, counterexample: ISUB with 1 on the bottom (a) and 2 on top (b): a < b,
yet execution does not fail — the machine pushes the wrapped `uint64`
difference `2 ^ 64 - 1` and continues. -/
theorem isub_negative_counterexample :
    tick [OP_ISUB, OP_FAIL] [] (MState.mk 0 [VNumber 2, VNumber 1] [] [] [] [])
      = TickRes.cont (MState.mk 1 [VNumber (2 ^ 64 - 1)] [] [] [] []) ∧ (1 : Nat) < 2 := by
  constructor
  · decide
  · decide

/-- C5 as amended: ISUB pops b (top) and a, and pushes the wrapping `uint64`
difference `(a - b) mod 2 ^ 64`; a negative mathematical difference does not
fail — it wraps around, and the machine continues. -/
theorem isub_wraps {prog : List Nat} {res : List Value} {s : MState}
    (a b : Nat) (rest : List Value)
    (hop : prog[s.P]? = some OP_ISUB)
    (hstack : s.stack = VNumber b :: VNumber a :: rest)
    (hcont : s.P + 1 < prog.length) :
    tick prog res s = TickRes.cont
      { s with stack := VNumber (usub a b) :: rest, P := s.P + 1 } := by
  unfold tick
  rw [hop, hstack]
  simp only [OP_APUSH, OP_IPUSH, OP_BUMP, OP_IADD, OP_ISUB]
  norm_num
  simp only [popNumberS]
  unfold finishTick
  rw [if_neg (by simp; omega)]

/-- Witness for C5's amended theorem: `1 - 2` wraps to `2 ^ 64 - 1`. -/
theorem isub_wraps_witness :
    tick [OP_ISUB, OP_FAIL] [] (MState.mk 0 [VNumber 2, VNumber 1] [] [] [] [])
      = TickRes.cont
        { MState.mk 0 [VNumber 2, VNumber 1] [] [] [] [] with
            stack := VNumber (usub 1 2) :: [], P := 0 + 1 } :=
  isub_wraps 1 2 [] rfl rfl (by decide)

theorem popFundingsLoop_ok (a : String) (fs : List Funding) (rest : List Value)
    (hall : ∀ f ∈ fs, f.asset = a) :
    popFundingsLoop a fs.length (fs.map VFunding ++ rest) = Sum.inr (fs, rest) := by
  induction fs with
  | nil => rfl
  | cons f fs ih =>
    have hf : f.asset = a := hall f (List.mem_cons_self f fs)
    simp only [List.length_cons, List.map_cons, List.cons_append, popFundingsLoop, popFundingS]
    rw [if_neg (by simp [hf])]
    rw [ih (fun g hg => hall g (List.mem_cons_of_mem f hg))]

theorem assembleFold_ok (a : String) (fs : List Funding) :
    ∀ acc : Funding, acc.asset = a → (∀ f ∈ fs, f.asset = a) →
    ∃ F, fs.foldl (fun acc f =>
        match acc with
        | none => none
        | some acc => acc.Concat f) (some acc) = some F ∧ F.asset = a := by
  induction fs with
  | nil => exact fun acc hacc _ => ⟨acc, rfl, hacc⟩
  | cons f fs ih =>
    intro acc hacc hall
    have hf : f.asset = a := hall f (List.mem_cons_self f fs)
    have hcc : ∃ acc2 : Funding, acc.Concat f = some acc2 ∧ acc2.asset = a := by
      unfold Funding.Concat
      rw [if_neg (by rw [hacc, hf]; simp)]
      by_cases hi : acc.infinite
      · rw [if_pos hi]
        exact ⟨_, rfl, hacc⟩
      · rw [if_neg hi]
        exact ⟨_, rfl, hacc⟩
    obtain ⟨acc2, hacc2, ha2⟩ := hcc
    simp only [List.foldl_cons, hacc2]
    exact ih acc2 ha2 (fun g hg => hall g (List.mem_cons_of_mem f hg))

/-- The assemble fold succeeds on any list of fundings of one asset. -/
theorem assembleFold_some (a : String) (fs : List Funding)
    (hall : ∀ f ∈ fs, f.asset = a) :
    ∃ F, assembleFold a fs = some F ∧ F.asset = a :=
  assembleFold_ok a fs ⟨a, [], false⟩ rfl hall

/-- C6, counterexample: FUNDING_ASSEMBLE with n = 2, topmost funding parts
[(1, a)] and deeper funding parts [(2, b)] pushes the concatenation
[(2, b), (1, a)] — the deepest funding's parts come first, not the topmost's
as the claim states. -/
theorem funding_assemble_counterexample :
    tick [OP_FUNDING_ASSEMBLE, OP_FAIL] []
        (MState.mk 0
          [VNumber 2, VFunding ⟨"C", [⟨1, "a"⟩], false⟩, VFunding ⟨"C", [⟨2, "b"⟩], false⟩]
          [] [] [] [])
      = TickRes.cont
          (MState.mk 1 [VFunding ⟨"C", [⟨2, "b"⟩, ⟨1, "a"⟩], false⟩] [] [] [] []) ∧
    ([⟨2, "b"⟩, ⟨1, "a"⟩] : List FundingPart) ≠ [⟨1, "a"⟩, ⟨2, "b"⟩] := by
  constructor
  · decide
  · decide

/-- C6 as amended: executing FUNDING_ASSEMBLE pops the count n and the n
same-asset Fundings and pushes their concatenation built by folding Concat
over the popped fundings in reverse pop order: the deepest (last-popped)
Funding's parts come first in the result's part order and the topmost popped
Funding's parts come last. -/
theorem funding_assemble_deepest_first {prog : List Nat} {res : List Value} {s : MState}
    (n : Nat) (a : String) (fs : List Funding) (rest : List Value)
    (hop : prog[s.P]? = some OP_FUNDING_ASSEMBLE)
    (hstack : s.stack = VNumber n :: (fs.map VFunding ++ rest))
    (hlen : fs.length = n) (hn0 : n ≠ 0) (hsmall : n < I64_MIN_AS_U64)
    (hall : ∀ f ∈ fs, f.asset = a)
    (hcont : s.P + 1 < prog.length) :
    ∃ F, assembleFold a fs.reverse = some F ∧ F.asset = a ∧
      tick prog res s = TickRes.cont
        { s with stack := VFunding F :: rest, P := s.P + 1 } := by
  cases fs with
  | nil => exact absurd hlen.symm hn0
  | cons first others =>
    have hfirst : first.asset = a := hall first (List.mem_cons_self first others)
    have hrev : ∀ f ∈ (first :: others).reverse, f.asset = a := by
      intro f hf
      exact hall f (List.mem_reverse.mp hf)
    obtain ⟨F, hF, haF⟩ := assembleFold_some a (first :: others).reverse hrev
    refine ⟨F, hF, haF, ?_⟩
    unfold tick
    rw [hop, hstack]
    simp only [OP_APUSH, OP_IPUSH, OP_BUMP, OP_IADD, OP_ISUB, OP_PRINT, OP_FAIL, OP_ASSET,
      OP_MONETARY_NEW, OP_MONETARY_ADD, OP_MAKE_ALLOTMENT, OP_TAKE_ALL, OP_TAKE, OP_TAKE_MAX,
      OP_FUNDING_ASSEMBLE]
    norm_num
    simp only [popNumberS]
    rw [if_neg hn0, if_neg (by omega)]
    simp only [List.map_cons, List.cons_append, popFundingS]
    have htail : others.length = n - 1 := by
      simp only [List.length_cons] at hlen
      omega
    rw [show popFundingsLoop first.asset (n - 1) (others.map VFunding ++ rest)
          = Sum.inr (others, rest) by
        rw [hfirst, ← htail]
        exact popFundingsLoop_ok a others rest
          (fun g hg => hall g (List.mem_cons_of_mem first hg))]
    rw [List.reverse_cons] at hF
    split
    · rename_i st heq
      exact absurd heq (by simp)
    · rename_i others2 st3 heq
      rw [Sum.inr.injEq, Prod.mk.injEq] at heq
      obtain ⟨ho, hs3⟩ := heq
      subst ho
      subst hs3
      rw [hfirst, hF]
      split
      · rename_i heq2
        exact absurd heq2 (by simp)
      · rename_i result heq2
        rw [Option.some.injEq] at heq2
        subst heq2
        unfold finishTick
        rw [if_neg (by simp; omega)]

/-- Witness for C6's amended theorem at the counterexample's input. -/
theorem funding_assemble_deepest_first_witness :
    ∃ F, assembleFold "C"
        ([⟨"C", [⟨1, "a"⟩], false⟩, ⟨"C", [⟨2, "b"⟩], false⟩] : List Funding).reverse
        = some F ∧ F.asset = "C" ∧
      tick [OP_FUNDING_ASSEMBLE, OP_FAIL] []
          (MState.mk 0
            [VNumber 2, VFunding ⟨"C", [⟨1, "a"⟩], false⟩,
              VFunding ⟨"C", [⟨2, "b"⟩], false⟩] [] [] [] [])
        = TickRes.cont
          { MState.mk 0
              [VNumber 2, VFunding ⟨"C", [⟨1, "a"⟩], false⟩,
                VFunding ⟨"C", [⟨2, "b"⟩], false⟩] [] [] [] [] with
              stack := VFunding F :: [], P := 0 + 1 } :=
  funding_assemble_deepest_first 2 "C"
    [⟨"C", [⟨1, "a"⟩], false⟩, ⟨"C", [⟨2, "b"⟩], false⟩] [] rfl rfl rfl
    (by decide) (by decide) (by decide) (by decide)

theorem lookupA_updateA_self {α : Type} (b : List (String × α)) (k : String) (v : α) :
    lookupA (updateA b k v) k = some v := by
  induction b with
  | nil => simp [updateA, lookupA]
  | cons kv rest ih =>
    obtain ⟨k2, w⟩ := kv
    by_cases hk : k2 = k
    · simp [updateA, lookupA, hk]
    · simp [updateA, lookupA, hk, ih]

theorem lookupA_updateA_isSome {α : Type} (b : List (String × α)) (k key : String) (v : α)
    (h : (lookupA b key).isSome = true) : (lookupA (updateA b k v) key).isSome = true := by
  by_cases hk : k = key
  · subst hk
    rw [lookupA_updateA_self]
    rfl
  · rw [lookupA_updateA_ne _ _ _ _ hk]
    exact h

theorem repayGo_isSome (asset : String) (ps : List FundingPart) :
    ∀ bal : Balances,
    (∀ p ∈ ps, p.account ≠ "world" → (lookupA bal p.account).isSome = true) →
    (repayGo bal asset ps).isSome = true := by
  induction ps with
  | nil => exact fun bal _ => rfl
  | cons p ps ih =>
    intro bal h
    unfold repayGo
    split
    · exact ih bal (fun q hq hqw => h q (List.mem_cons_of_mem p hq) hqw)
    · rename_i hacc
      have hp := h p (List.mem_cons_self p ps) hacc
      cases hl : lookupA bal p.account with
      | none => rw [hl] at hp; exact absurd hp (by simp)
      | some inner =>
        exact ih _ (fun q hq hqw =>
          lookupA_updateA_isSome _ _ _ _ (h q (List.mem_cons_of_mem p hq) hqw))

/-- C10: repay is total exactly under the tracked-accounts precondition.  If
every non-world part of the funding names an account whose entry for the
funding's asset already exists in the balances map, repay succeeds; there is
an input — a funding with a non-world part whose account is untracked — on
which repay reaches its error branch (the Go write into a nil inner map, a
runtime panic); and unlike repay, credit silently skips untracked accounts. -/
theorem repay_partiality (f : Funding) (bal : Balances)
    (h : ∀ p ∈ f.parts, p.account ≠ "world" →
      ((lookupA bal p.account).bind fun inner => lookupA inner f.asset) ≠ none) :
    (repay bal f).isSome = true ∧
    (∃ g bal2, repay bal2 g = none) ∧
    (∀ account g (bal3 : Balances), lookupA bal3 account = none → credit bal3 account g = bal3) := by
  refine ⟨?_, ?_, ?_⟩
  · refine repayGo_isSome f.asset f.parts bal (fun p hp hw => ?_)
    have hb := h p hp hw
    cases hl : lookupA bal p.account with
    | none => rw [hl] at hb; exact absurd rfl hb
    | some inner => rfl
  · exact ⟨⟨"C", [⟨1, "x"⟩], false⟩, [], rfl⟩
  · intro account g bal3 hnone
    unfold credit
    split
    · rfl
    · rw [hnone]

/-- Witness for C10: a funding repaid into a balances map that tracks its only
part's account. -/
theorem repay_partiality_witness :
    (repay [("aa", [("C", 1)])] ⟨"C", [⟨5, "aa"⟩], false⟩).isSome = true ∧
    (∃ g bal2, repay bal2 g = none) ∧
    (∀ account g (bal3 : Balances), lookupA bal3 account = none → credit bal3 account g = bal3) :=
  repay_partiality ⟨"C", [⟨5, "aa"⟩], false⟩ [("aa", [("C", 1)])] (by decide)
